import Mathlib

/-!
Verification of the core algorithms of `skdata.py` (Soul Knight localization
table extractor): the binary record decoder `parse_i2_asset_file`, the alias
resolver inside `load_language_map`, and the two key classifiers
`build_dictionaries` / `export_needed_data_from_langmap`.

The Python code is shallowly embedded: byte buffers are `List Nat` (each byte
0..255 in real inputs), Python `str` is Lean `String` manipulated through its
underlying `List Char` (Python 3 strings are sequences of Unicode code
points), dictionaries are association lists or update-functions
`String → Option String`, and the decoder / resolver loops are embedded with
an explicit fuel argument so that every definition is structurally recursive
and executable; sufficiency of the chosen fuel is proved where it matters.
-/

/-! ### Python string primitives -/

/-- Python whitespace test used by `str.strip()`, restricted to the ASCII
whitespace characters (the Python set additionally contains rare Unicode
space characters which never occur in the inputs considered here). -/
def pyIsSpace (c : Char) : Bool :=
  c = ' ' || c = '\t' || c = '\n' || c = '\r' || c = '\x0b' || c = '\x0c'

/-- Python `s.strip()`: drop leading and trailing whitespace. -/
def pyStrip (s : String) : String :=
  ⟨((s.data.dropWhile pyIsSpace).reverse.dropWhile pyIsSpace).reverse⟩

/-- Worker for Python `str.replace`: scans left to right, replacing each
non-overlapping occurrence of `pat` (assumed non-empty, as in all call
sites of `skdata.py`) by `rep`. The fuel is the length of the scanned list;
every step consumes at least one character, so fuel never runs out before
the list does. -/
def replGo (pat rep : List Char) : Nat → List Char → List Char
  | 0, xs => xs
  | _ + 1, [] => []
  | f + 1, c :: cs =>
    if pat.isPrefixOf (c :: cs) then
      rep ++ replGo pat rep f (List.drop (pat.length - 1) cs)
    else
      c :: replGo pat rep f cs

/-- Python `s.replace(pat, rep)` for non-empty `pat`. -/
def pyReplace (s pat rep : String) : String :=
  ⟨replGo pat.data rep.data s.data.length s.data⟩

/-- Embeds `sanitize_text` (skdata.py lines 177-181):
`text.replace("\r\n", "\\n").replace("\r", "\\n").replace("\n", "\\n").strip()`.
Note the order: all three replacements happen before the final strip. -/
def sanitize_text (text : String) : String :=
  pyStrip (pyReplace (pyReplace (pyReplace text "\r\n" "\\n") "\r" "\\n") "\n" "\\n")

/-! ### UTF-8 / Latin-1 decoding

`bytes.decode("utf-8")` is embedded by a standard UTF-8 sequence decoder
(rejecting overlong encodings, surrogates and values above U+10FFFF, as
CPython does); `errors="ignore"` skips the maximal valid subpart of an
invalid sequence; `bytes.decode("latin-1")` maps each byte to the code
point of the same value (no byte is undecodable in Latin-1). -/

/-- Is `b` a UTF-8 continuation byte (0x80..0xBF)? -/
def isCont (b : Nat) : Bool := 0x80 ≤ b && b ≤ 0xBF

/-- Range of the first continuation byte allowed after leader `b`
(the restricted ranges exclude overlong encodings and surrogates). -/
def cont1Ok (b b1 : Nat) : Bool :=
  if b = 0xE0 then 0xA0 ≤ b1 && b1 ≤ 0xBF
  else if b = 0xED then 0x80 ≤ b1 && b1 ≤ 0x9F
  else if b = 0xF0 then 0x90 ≤ b1 && b1 ≤ 0xBF
  else if b = 0xF4 then 0x80 ≤ b1 && b1 ≤ 0x8F
  else isCont b1

/-- Decode one UTF-8 sequence from the front of the list: the decoded
character and the number of bytes consumed, or `none` if the front is not a
valid sequence (or the list is empty). -/
def utf8Seq : List Nat → Option (Char × Nat)
  | [] => none
  | b :: bs =>
    if b ≤ 0x7F then some (Char.ofNat b, 1)
    else if 0xC2 ≤ b && b ≤ 0xDF then
      match bs with
      | b1 :: _ =>
        if isCont b1 then some (Char.ofNat ((b - 0xC0) * 64 + (b1 - 0x80)), 2)
        else none
      | [] => none
    else if 0xE0 ≤ b && b ≤ 0xEF then
      match bs with
      | b1 :: b2 :: _ =>
        if cont1Ok b b1 && isCont b2 then
          some (Char.ofNat ((b - 0xE0) * 4096 + (b1 - 0x80) * 64 + (b2 - 0x80)), 3)
        else none
      | _ => none
    else if 0xF0 ≤ b && b ≤ 0xF4 then
      match bs with
      | b1 :: b2 :: b3 :: _ =>
        if cont1Ok b b1 && isCont b2 && isCont b3 then
          some (Char.ofNat ((b - 0xF0) * 262144 + (b1 - 0x80) * 4096 +
                            (b2 - 0x80) * 64 + (b3 - 0x80)), 4)
        else none
      | _ => none
    else none

/-- Number of bytes the `errors="ignore"` handler skips when the front of the
list is not a valid sequence: the length of the maximal valid subpart,
at least one byte. -/
def utf8Err : List Nat → Nat
  | [] => 1
  | b :: bs =>
    if 0xE0 ≤ b && b ≤ 0xEF then
      match bs with
      | b1 :: _ => if cont1Ok b b1 then 2 else 1
      | [] => 1
    else if 0xF0 ≤ b && b ≤ 0xF4 then
      match bs with
      | b1 :: b2 :: _ => if cont1Ok b b1 then (if isCont b2 then 3 else 2) else 1
      | [b1] => if cont1Ok b b1 then 2 else 1
      | [] => 1
    else 1

/-- Strict UTF-8 decoding worker (`bytes.decode("utf-8")`): `none` on any
invalid sequence. Fuel is the length of the input; each decoded sequence
consumes at least one byte. -/
def utf8StrictGo : Nat → List Nat → Option (List Char)
  | 0, l => match l with | [] => some [] | _ :: _ => none
  | _ + 1, [] => some []
  | f + 1, b :: bs =>
    match utf8Seq (b :: bs) with
    | some (c, n) => (utf8StrictGo f (List.drop (n - 1) bs)).map (c :: ·)
    | none => none

/-- Strict UTF-8 decoding of a byte list. -/
def utf8Strict (l : List Nat) : Option (List Char) := utf8StrictGo l.length l

/-- UTF-8 decoding with `errors="ignore"` worker: invalid subparts are
skipped instead of failing. -/
def utf8IgnoreGo : Nat → List Nat → List Char
  | 0, _ => []
  | _ + 1, [] => []
  | f + 1, b :: bs =>
    match utf8Seq (b :: bs) with
    | some (c, n) => c :: utf8IgnoreGo f (List.drop (n - 1) bs)
    | none => utf8IgnoreGo f (List.drop (utf8Err (b :: bs) - 1) bs)

/-- UTF-8 decoding with `errors="ignore"` of a byte list. -/
def utf8Ignore (l : List Nat) : List Char := utf8IgnoreGo l.length l

/-- Python `bytes.decode("latin-1", errors="ignore")`: every byte value
0..255 decodes to the code point of the same value, so `errors="ignore"`
never actually drops anything. -/
def latin1Decode (l : List Nat) : List Char := l.map Char.ofNat

/-- Embeds the key decoding of `parse_i2_asset_file` (skdata.py lines
224-227):

    try:
        key = key_bytes.decode("utf-8", errors="ignore").strip()
    except UnicodeDecodeError:
        key = key_bytes.decode("latin-1", errors="ignore").strip()

Because the `try` branch decodes with `errors="ignore"`, it can never raise
`UnicodeDecodeError`, so the `except` (Latin-1) branch is unreachable and
the behaviour is exactly UTF-8-with-ignore followed by `strip()`. -/
def decodeKey (bs : List Nat) : String := pyStrip ⟨utf8Ignore bs⟩

/-- Modelled from the spec: the key decoding as the specification describes
it — "Decode as UTF-8; on failure fall back to a single-byte Latin-1-style
decoding that best-effort-ignores undecodable bytes. Trim surrounding
whitespace." (Strict UTF-8 first, Latin-1 with ignore as the fallback.)
Declared only to be compared against `decodeKey`, the embedding of what the
code actually does. -/
def decodeKeySpec (bs : List Nat) : String :=
  match utf8Strict bs with
  | some cs => pyStrip ⟨cs⟩
  | none => pyStrip ⟨latin1Decode bs⟩

/-- Embeds the field decoding of `parse_i2_asset_file` (skdata.py lines
255-258): strict UTF-8, and on `UnicodeDecodeError` a Latin-1 decode with
`errors="ignore"` (which is total). No strip here: fields are sanitized by
`sanitize_text` instead. -/
def decodeField (bs : List Nat) : String :=
  match utf8Strict bs with
  | some cs => ⟨cs⟩
  | none => ⟨latin1Decode bs⟩

example : sanitize_text "a\r\nb\rc\n " = "a\\nb\\nc\\n" := by decide
example : decodeKey [0xFF] = "" := by decide
example : decodeKeySpec [0xFF] = "ÿ" := by decide
example : decodeKey [97, 98, 99] = "abc" := by decide
example : decodeField [65] = "A" := by decide

/-! ### The binary record decoder `parse_i2_asset_file`

skdata.py lines 184-274. The buffer is a `List Nat` of byte values; `pos`
is the read offset. Exclusion patterns (`filter_patterns`, a list of
compiled regexes used only through `p.match(key)`) are embedded as a list
of Boolean predicates, each one standing for the match-at-start-of-string
behaviour of one compiled pattern. -/

/-- The fixed language-name list `LANGUAGES` (skdata.py lines 26-42). -/
def LANGUAGES : List String :=
  ["English", "Chinese (Traditional)", "Chinese (Simplified)", "Japanese",
   "Korean", "Spanish", "German", "Portuguese", "French", "Russian",
   "Polish", "Persian", "Arabic", "Thai", "Vietnamese"]

/-- Little-endian value of a byte list (`int.from_bytes(_, "little")`);
Python accepts fewer than 4 bytes near the end of the buffer. -/
def leBytes : List Nat → Nat
  | [] => 0
  | b :: bs => b + 256 * leBytes bs

/-- `int.from_bytes(data[pos : pos + 4], "little")`. -/
def readLE4 (data : List Nat) (pos : Nat) : Nat :=
  leBytes ((data.drop pos).take 4)

/-- The alignment step `if pos % 4: pos += 4 - (pos % 4)`. -/
def alignUp4 (pos : Nat) : Nat :=
  if pos % 4 = 0 then pos else pos + (4 - pos % 4)

/-- The zero-padding scan (skdata.py lines 212-214):
`while pos < len(data) and int.from_bytes(data[pos:pos+4], "little") == 0:
pos += 4`. Fuel bounds the number of steps; `data.length` steps always
suffice because `pos` grows by 4 each step and the loop requires
`pos < data.length`. -/
def zeroScan (data : List Nat) : Nat → Nat → Nat
  | 0, pos => pos
  | f + 1, pos =>
    if pos < data.length && readLE4 data pos = 0 then zeroScan data f (pos + 4)
    else pos

/-- The per-record field loop (skdata.py lines 246-265): reads up to
`count` length-prefixed fields, stopping early (Python `break` out of the
`for`) when fewer than 4 bytes remain for a length; each field is decoded,
sanitized, and the offset is re-aligned to 4 after it. Returns the fields
in order together with the final offset. -/
def readFields (data : List Nat) : Nat → Nat → List String → List String × Nat
  | 0, pos, acc => (acc.reverse, pos)
  | count + 1, pos, acc =>
    if pos + 4 > data.length then (acc.reverse, pos)
    else
      let fieldLen := readLE4 data pos
      let pos1 := pos + 4
      let text := if fieldLen > 0 then decodeField ((data.drop pos1).take fieldLen) else ""
      readFields data count (alignUp4 (pos1 + fieldLen)) (sanitize_text text :: acc)

/-- Result of one iteration of the decoding `while` loop: the emitted
record if any, the new offset, and whether the loop continues (`false`
embeds the various `break` statements). -/
structure IterOut where
  emitted : Option (String × List String)
  pos : Nat
  cont : Bool
  deriving DecidableEq, Repr

/-- Remainder of a loop iteration once a non-zero `key_len` has been read
at offset `pos` (skdata.py lines 223-271): key bytes, re-align, the
dual-path field count (a zero `start_count` is a sentinel and the next
4-byte value is the true count), the field loop, the 4-byte record
terminator skip, and the exclusion filter
`if not filter_patterns or not any(p.match(key) for p in filter_patterns)`. -/
def iterBody (data : List Nat) (pats : List (String → Bool)) (pos keyLen : Nat) : IterOut :=
  let key := decodeKey ((data.drop pos).take keyLen)
  let pos1 := alignUp4 (pos + keyLen)
  if pos1 + 4 > data.length then ⟨none, pos1, false⟩
  else
    let startCount := readLE4 data pos1
    let pos2 := pos1 + 4
    if startCount = 0 then
      if pos2 + 4 > data.length then ⟨none, pos2, false⟩
      else
        let fieldsCount := readLE4 data pos2
        let fp := readFields data fieldsCount (pos2 + 4) []
        let pos4 := if fp.2 + 4 ≤ data.length then fp.2 + 4 else fp.2
        ⟨if pats.any (fun p => p key) then none else some (key, fp.1), pos4, true⟩
    else
      let fp := readFields data startCount pos2 []
      let pos4 := if fp.2 + 4 ≤ data.length then fp.2 + 4 else fp.2
      ⟨if pats.any (fun p => p key) then none else some (key, fp.1), pos4, true⟩

/-- One iteration of the decoding `while` loop (skdata.py lines 200-271),
starting from offset `pos` with `pos < data.length`: align, read the key
length, run the zero-padding scan when it is zero (terminating decoding if
the value after the padding is still zero or fewer than 4 bytes remain),
then `iterBody`. -/
def iterStep (data : List Nat) (pats : List (String → Bool)) (pos : Nat) : IterOut :=
  let p0 := alignUp4 pos
  if p0 + 4 > data.length then ⟨none, p0, false⟩
  else
    let keyLen := readLE4 data p0
    let p1 := p0 + 4
    if keyLen = 0 then
      let p2 := zeroScan data (data.length + 1) p1
      if p2 ≥ data.length - 4 then ⟨none, p2, false⟩
      else
        let keyLen2 := readLE4 data p2
        let p3 := p2 + 4
        if keyLen2 = 0 then ⟨none, p3, false⟩
        else iterBody data pats p3 keyLen2
    else iterBody data pats p1 keyLen

/-- The decoding `while pos < len(data)` loop. Fuel bounds the number of
iterations; `data.length + 1` always suffices because every continuing
iteration advances `pos` by at least 4 (`parseLoopF_isSome`). Returns
`none` only on fuel exhaustion. -/
def parseLoopF (data : List Nat) (pats : List (String → Bool)) :
    Nat → Nat → List (String × List String) → Option (List (String × List String))
  | 0, _, _ => none
  | f + 1, pos, acc =>
    if pos < data.length then
      let out := iterStep data pats pos
      let acc1 := match out.emitted with
        | some r => acc ++ [r]
        | none => acc
      if out.cont then parseLoopF data pats f out.pos acc1 else some acc1
    else some acc

/-- The record-decoding part of `parse_i2_asset_file`: the loop started at
offset 60 (the skipped header), before the final sort. -/
def parse_records (data : List Nat) (pats : List (String → Bool)) :
    List (String × List String) :=
  (parseLoopF data pats (data.length + 1) 60 []).getD []

/-- Lexicographic (code-point) comparison of char lists: Python `str < str`. -/
def lexLt : List Char → List Char → Bool
  | [], [] => false
  | [], _ :: _ => true
  | _ :: _, [] => false
  | a :: as, b :: bs => if a < b then true else if b < a then false else lexLt as bs

/-- Stable insertion of a record into a key-sorted record list (inserted
after existing equal keys, matching the stability of Python `list.sort`). -/
def insRecord (r : String × List String) :
    List (String × List String) → List (String × List String)
  | [] => [r]
  | x :: xs => if lexLt r.1.data x.1.data then r :: x :: xs else x :: insRecord r xs

/-- `records.sort(key=lambda r: r[0])` (skdata.py line 273). -/
def sortRecords (rs : List (String × List String)) : List (String × List String) :=
  rs.foldl (fun acc r => insRecord r acc) []

/-- Embeds `parse_i2_asset_file` (skdata.py lines 184-274). The file
argument is `none` when the file does not exist, in which case the function
raises `FileNotFoundError` (embedded as `Except.error`); otherwise the byte
buffer is decoded — this path never raises — and the sorted records are
returned together with `LANGUAGES`. -/
def parse_i2_asset_file (file : Option (List Nat)) (pats : List (String → Bool)) :
    Except String (List (String × List String) × List String) :=
  match file with
  | none => Except.error "I2 .dat file not found"
  | some data => Except.ok (sortRecords (parse_records data pats), LANGUAGES)

/-- Concrete 104-byte buffer: a 60-byte header, a record with key `abc` and
one field `A`, a 4-byte terminator, and a record with key `zz` and one
field `B` that ends exactly at the end of the buffer. -/
def bufC3 : List Nat :=
  List.replicate 60 0 ++
  [3, 0, 0, 0, 97, 98, 99, 0,
   1, 0, 0, 0, 1, 0, 0, 0, 65, 0, 0, 0,
   0, 0, 0, 0,
   2, 0, 0, 0, 122, 122, 0, 0,
   1, 0, 0, 0, 1, 0, 0, 0, 66, 0, 0, 0]

/-- Match-at-start-of-string semantics of `re.compile("ab")`:
`re.compile("ab").match(s)` is truthy exactly when `s` starts with `ab`. -/
def abMatchStart (s : String) : Bool := ("ab" : String).data.isPrefixOf s.data

/-- Full-match semantics of `re.compile("ab")`:
`re.compile("ab").fullmatch(s)` is truthy exactly when `s` equals `ab`. -/
def abFullMatch (s : String) : Bool := s = "ab"

example : parse_records bufC3 [] = [("abc", ["A"]), ("zz", ["B"])] := by decide
example : parse_records bufC3 [abMatchStart] = [("zz", ["B"])] := by decide
example : abFullMatch "abc" = false := by decide
example : parse_records [] [] = [] := by decide
set_option maxRecDepth 4000 in
example : parse_records (List.replicate 200 0) [] = [] := by decide
example : parse_records (bufC3.take 75) [] = [("abc", [])] := by decide
example : parse_records (bufC3.take 66) [] = [] := by decide

/-! ### The alias resolver of `load_language_map`

skdata.py lines 441-479. The raw id-to-string mapping is an association
list (a Python dict: keys unique, iterated in insertion order); the
resolved map is an update-function `String → Option String` so that the
"resulting `ResolvedMap` functions" of the order-independence property are
literally Lean functions. -/

/-- A resolved map: `resolved_map` of `load_language_map`. -/
abbrev RMap : Type := String → Option String

/-- The empty `resolved_map`. -/
def rmEmpty : RMap := fun _ => none

/-- `resolved_map[k] = v`. -/
def rmInsert (k v : String) (m : RMap) : RMap :=
  fun x => if x = k then some v else m x

/-- `raw_map.get(key, "")`. -/
def pyGet (raw : List (String × String)) (k : String) : String :=
  (raw.lookup k).getD ""

/-- The alias test `val.startswith("{") and val.endswith("}")` together
with the reference extraction `val[1:-1]` (skdata.py lines 466-467):
`some ref` when `val` is a brace-wrapped alias, `none` otherwise. -/
def aliasRefOf (val : String) : Option String :=
  if ("\x7b" : String).data.isPrefixOf val.data && ("\x7d" : String).data.isSuffixOf val.data then
    some ⟨(val.data.drop 1).dropLast⟩
  else none

example : aliasRefOf "\x7by\x7d" = some "y" := by decide
example : aliasRefOf "hello" = none := by decide
example : aliasRefOf "" = none := by decide
example : aliasRefOf "\x7b" = none := by decide

/-- The recursive memoized `resolve(key, visited)` closure of
`load_language_map` (skdata.py lines 456-473), with the memo table and the
per-root visited set passed explicitly, and an explicit fuel. Returns the
resolved string and the updated memo table; `none` only on fuel
exhaustion (`resolveF_isSome` shows the fuel used by `resolveTop` always
suffices).

    def resolve(key, visited=None):
        if key in resolved_map: return resolved_map[key]
        if visited is None: visited = set()
        if key in visited: return f"[Cyclic alias: \x7bkey\x7d]"
        visited.add(key)
        val = raw_map.get(key, "")
        if val.startswith("\x7b") and val.endswith("\x7d"):
            ref = val[1:-1]
            resolved = resolve(ref, visited)
            resolved_map[key] = resolved
            return resolved
        else:
            resolved_map[key] = val
            return val
-/
def resolveF (raw : List (String × String)) :
    Nat → String → List String → RMap → Option (String × RMap)
  | 0, _, _, _ => none
  | fuel + 1, k, visited, res =>
    match res k with
    | some v => some (v, res)
    | none =>
      if k ∈ visited then some ("[Cyclic alias: " ++ k ++ "]", res)
      else
        match aliasRefOf (pyGet raw k) with
        | some ref =>
          match resolveF raw fuel ref (k :: visited) res with
          | some (rv, res2) => some (rv, rmInsert k rv res2)
          | none => none
        | none => some (pyGet raw k, rmInsert k (pyGet raw k) res)

/-- One top-level call `resolve(k)` of the eager pass, threading the memo
table. The fuel `raw.length + 1` always suffices (`resolveF_isSome`), so
the `none` branch is unreachable. -/
def resolveTop (raw : List (String × String)) (res : RMap) (k : String) : RMap :=
  match resolveF raw (raw.length + 1) k [] res with
  | some (_, res2) => res2
  | none => res

/-- The eager pass `for k in raw_map: resolve(k)` (skdata.py lines
476-477), visiting the ids in the given order. -/
def resolveAllOrder (raw : List (String × String)) (order : List String) : RMap :=
  order.foldl (resolveTop raw) rmEmpty

/-- The resolution part of `load_language_map`: the eager pass over the
raw map in dictionary (insertion) order, returning `resolved_map`. -/
def resolveAll (raw : List (String × String)) : RMap :=
  resolveAllOrder raw (raw.map Prod.fst)

/-- The raw map of the cycle-containment test: x and y alias each other. -/
def rawCyc : List (String × String) := [("x", "\x7by\x7d"), ("y", "\x7bx\x7d")]

/-- The raw map of the cycle-containment claim extended with an id outside
the cycle. -/
def rawCycZ : List (String × String) :=
  [("x", "\x7by\x7d"), ("y", "\x7bx\x7d"), ("z", "hello")]

example : resolveAll rawCycZ "x" = some "[Cyclic alias: x]" := by decide
example : resolveAll rawCycZ "y" = some "[Cyclic alias: x]" := by decide
example : resolveAll rawCycZ "z" = some "hello" := by decide
example : resolveAllOrder rawCyc ["x", "y"] "x" = some "[Cyclic alias: x]" := by decide
example : resolveAllOrder rawCyc ["y", "x"] "x" = some "[Cyclic alias: y]" := by decide
example : resolveAll [("a", "\x7bzzz\x7d")] "a" = some "" := by decide
example : resolveAll [("a", "\x7bzzz\x7d")] "zzz" = some "" := by decide
example : resolveAll [("a", "\x7bb\x7d"), ("b", "\x7bc\x7d"), ("c", "hello")] "a" = some "hello" := by decide

/-! ### The key classifier `build_dictionaries`

skdata.py lines 482-549: a single pass over the resolved id-to-string
pairs, dispatching each id through an if/elif chain of structural rules.
The regular expressions are embedded by direct matchers with Python
`re.match` (anchored at the start, not at the end) semantics. -/

/-- Python `s.startswith(p)`. -/
def pyStarts (s p : String) : Bool := p.data.isPrefixOf s.data

/-- Python `s.endswith(p)`. -/
def pyEnds (s p : String) : Bool := p.data.isSuffixOf s.data

/-- Python `p in s` for a single character (substring membership). -/
def pyHasChar (s : String) (c : Char) : Bool := s.data.contains c

/-- Common worker for the `Character(\d+)_name_skin(\d+)` regex: from a
char list, the two digit groups and the unconsumed remainder, or `none`
when the shape does not match up to that point. -/
def charSkinParse (l : List Char) : Option (String × String × List Char) :=
  if ("Character" : String).data.isPrefixOf l then
    let rest := l.drop 9
    let n := rest.takeWhile Char.isDigit
    if n.isEmpty then none
    else
      let rest2 := rest.drop n.length
      if ("_name_skin" : String).data.isPrefixOf rest2 then
        let rest3 := rest2.drop 10
        let s := rest3.takeWhile Char.isDigit
        if s.isEmpty then none
        else some (⟨n⟩, ⟨s⟩, rest3.drop s.length)
      else none
  else none

/-- `re.match(r"Character(\d+)_name_skin(\d+)", rid)` (skdata.py line 533):
anchored at the start only, so trailing characters are allowed. -/
def charSkinMatch (rid : String) : Option (String × String) :=
  (charSkinParse rid.data).map (fun t => (t.1, t.2.1))

/-- `re.fullmatch` semantics of the same pattern, as used by the skin rule
of `export_needed_data_from_langmap` (skdata.py lines 788, 794): the whole
id must be consumed. -/
def charSkinFull (rid : String) : Option (String × String) :=
  match charSkinParse rid.data with
  | some (n, s, []) => some (n, s)
  | _ => none

/-- `re.match(r"task/([^_]+)(_title|_desc)?", rid)` (skdata.py line 508):
the greedy `[^_]+` group (non-empty, stops at the first underscore) and the
optional suffix group, which matches `_title` or `_desc` when one of them
follows (trailing characters after it are allowed, since `re.match` does
not anchor the end). Returns the two groups, `none` when the id after
`task/` starts with an underscore or is empty. -/
def taskMatch (rid : String) : Option (String × Option String) :=
  if ("task/" : String).data.isPrefixOf rid.data then
    let rest := rid.data.drop 5
    let cid := rest.takeWhile (fun c => c ≠ '_')
    if cid.isEmpty then none
    else
      let rem := rest.drop cid.length
      if ("_title" : String).data.isPrefixOf rem then some (⟨cid⟩, some "_title")
      else if ("_desc" : String).data.isPrefixOf rem then some (⟨cid⟩, some "_desc")
      else some (⟨cid⟩, none)
  else none

/-- The category dictionaries built by `build_dictionaries`; `characters`
is two-level (character index, then skin index). -/
structure Dicts where
  weapons : RMap
  buff_names : RMap
  buff_infos : RMap
  challenge_names : RMap
  challenge_titles : RMap
  challenge_descs : RMap
  materials : RMap
  plants : RMap
  pets : RMap
  characters : String → String → Option String

/-- All dictionaries empty. -/
def emptyDicts : Dicts :=
  ⟨rmEmpty, rmEmpty, rmEmpty, rmEmpty, rmEmpty, rmEmpty, rmEmpty, rmEmpty,
   rmEmpty, fun _ _ => none⟩

/-- The if/elif dispatch of `build_dictionaries` (skdata.py lines 498-536)
for one resolved pair `(rid, eng)`. Rules are tried in source order; a
matching rule consumes the id (for `task/` ids that fail the regex, the
Python `continue` drops the id entirely). -/
def classifyStep (d : Dicts) (rid eng : String) : Dicts :=
  if pyStarts rid "weapon/" then
    { d with weapons := rmInsert (pyReplace rid "weapon/" "") eng d.weapons }
  else if pyStarts rid "Buff_name_" then
    { d with buff_names := rmInsert rid eng d.buff_names }
  else if pyStarts rid "Buff_info_" then
    { d with buff_infos := rmInsert rid eng d.buff_infos }
  else if pyStarts rid "task/" then
    match taskMatch rid with
    | none => d
    | some (cid, some "_title") =>
      { d with challenge_titles := rmInsert cid eng d.challenge_titles }
    | some (cid, some _) =>
      { d with challenge_descs := rmInsert cid eng d.challenge_descs }
    | some (cid, none) =>
      { d with challenge_names := rmInsert cid eng d.challenge_names }
  else if pyStarts rid "material_" then
    { d with materials := rmInsert rid eng d.materials }
  else if pyStarts rid "plant_" && !pyHasChar rid '/' then
    { d with plants := rmInsert rid eng d.plants }
  else if pyStarts rid "Pet_name_" && !pyEnds rid "_des" && !pyEnds rid "_lock" then
    { d with pets := rmInsert rid eng d.pets }
  else
    match charSkinMatch rid with
    | some (n, s) =>
      { d with characters := fun ci =>
          if ci = n then rmInsert s eng (d.characters n) else d.characters ci }
    | none => d

/-- The classification pass of `build_dictionaries`: a fold of
`classifyStep` over the resolved pairs in iteration order. -/
def build_dictionaries (entries : List (String × String)) : Dicts :=
  entries.foldl (fun d r => classifyStep d r.1 r.2) emptyDicts

/-- The resolved-map input of the classification-dispatch claim. -/
def entriesC8 : List (String × String) :=
  [("weapon/sword_001", "W"), ("Character3_name_skin2", "C"),
   ("Pet_name_7", "P"), ("Pet_name_7_des", "D"), ("Pet_name_7_lock", "L"),
   ("task/boss1_title", "T")]

example : (build_dictionaries entriesC8).weapons "sword_001" = some "W" := by decide
example : (build_dictionaries entriesC8).characters "3" "2" = some "C" := by decide
example : (build_dictionaries entriesC8).pets "Pet_name_7" = some "P" := by decide
example : (build_dictionaries entriesC8).pets "Pet_name_7_des" = none := by decide
example : (build_dictionaries entriesC8).pets "Pet_name_7_lock" = none := by decide
example : (build_dictionaries entriesC8).challenge_titles "boss1" = some "T" := by decide

/-! ### The needed-data export `export_needed_data_from_langmap`

skdata.py lines 778-828: a second, independent classification pass over the
same resolved mapping, using `re.fullmatch` throughout. -/

/-- The digit group of `re.fullmatch(r"Pet_name_(\d+)", key)`. -/
def petFull (key : String) : Option String :=
  if ("Pet_name_" : String).data.isPrefixOf key.data then
    let rest := key.data.drop 9
    let n := rest.takeWhile Char.isDigit
    if n.isEmpty then none
    else if rest.drop n.length = [] then some ⟨n⟩ else none
  else none

/-- Substring test: does `pat` occur inside `hay`? -/
def subIn (pat hay : List Char) : Bool :=
  (List.range (hay.length + 1)).any (fun i => pat.isPrefixOf (hay.drop i))

/-- The fixed exclusion substrings of the needed-data material rule. -/
def materialBad : List String :=
  ["activity", "book", "fragment", "tape", "skill", "new", "money", "multi", "box"]

/-- Embeds
`re.fullmatch(r'(^material_(?!.*(?:activity|book|fragment|tape|skill|new|money|multi|box)).*)', key)`:
the key starts with `material_`, and the remainder neither contains a
newline (`.` does not match one, so `.*` could not span the key) nor any of
the exclusion substrings (for newline-free remainders the lookahead scans
the whole remainder). -/
def materialAccept (key : String) : Bool :=
  if ("material_" : String).data.isPrefixOf key.data then
    let rest := key.data.drop 9
    !rest.contains '\n' && !(materialBad.any (fun w => subIn w.data rest))
  else false

/-- `re.fullmatch(r"(Character\d+_skill_\d+_name)", key)`: the whole key,
which is also the captured group. -/
def charSkillFull (key : String) : Option String :=
  if ("Character" : String).data.isPrefixOf key.data then
    let rest := key.data.drop 9
    let n := rest.takeWhile Char.isDigit
    if n.isEmpty then none
    else
      let rest2 := rest.drop n.length
      if ("_skill_" : String).data.isPrefixOf rest2 then
        let rest3 := rest2.drop 7
        let s := rest3.takeWhile Char.isDigit
        if s.isEmpty then none
        else if rest3.drop s.length = ("_name" : String).data then some key else none
      else none
  else none

/-- The output of `export_needed_data_from_langmap`: `skin` is two-level
(`c<N>` then `c<N>_skin<S>`). -/
structure NeededData where
  skin : String → String → Option String
  pet : RMap
  material : RMap
  character_skill : RMap

/-- All needed-data dictionaries empty. -/
def emptyNeeded : NeededData := ⟨fun _ _ => none, rmEmpty, rmEmpty, rmEmpty⟩

/-- The per-key dispatch of `export_needed_data_from_langmap` (skdata.py
lines 792-819): skins, pets, materials, character skills, each guard
ending in `continue`. -/
def neededStep (r : NeededData) (key value : String) : NeededData :=
  match charSkinFull key with
  | some (n, s) =>
    { r with skin := fun ci =>
        if ci = "c" ++ n then
          rmInsert ("c" ++ n ++ "_skin" ++ s) value (r.skin ("c" ++ n))
        else r.skin ci }
  | none =>
    match petFull key with
    | some pid => { r with pet := rmInsert pid value r.pet }
    | none =>
      if materialAccept key then
        { r with material := rmInsert key value r.material }
      else
        match charSkillFull key with
        | some sid => { r with character_skill := rmInsert sid value r.character_skill }
        | none => r

/-- The classification pass of `export_needed_data_from_langmap`: a fold of
`neededStep` over the resolved pairs in iteration order. -/
def export_needed_data (entries : List (String × String)) : NeededData :=
  entries.foldl (fun r e => neededStep r e.1 e.2) emptyNeeded

example : (export_needed_data [("Character3_name_skin2", "C")]).skin "c3" "c3_skin2" = some "C" := by decide
example : (export_needed_data [("Character3_name_skin2_extra", "V")]).skin "c3" "c3_skin2" = none := by decide
example : (build_dictionaries [("Character3_name_skin2_extra", "V")]).characters "3" "2" = some "V" := by decide
example : (export_needed_data [("Pet_name_7", "P")]).pet "7" = some "P" := by decide
example : (export_needed_data [("material_book_x", "M")]).material "material_book_x" = none := by decide
example : (export_needed_data [("material_iron", "M")]).material "material_iron" = some "M" := by decide
example : (export_needed_data [("Character1_skill_2_name", "S")]).character_skill "Character1_skill_2_name" = some "S" := by decide

/-! ### Helper lemmas about decoder offset progress -/

theorem alignUp4_le (pos : Nat) : pos ≤ alignUp4 pos := by
  unfold alignUp4
  split <;> omega

theorem zeroScan_le (data : List Nat) : ∀ f pos, pos ≤ zeroScan data f pos := by
  intro f
  induction f with
  | zero => intro pos; exact Nat.le_refl _
  | succ f ih =>
    intro pos
    rw [zeroScan]
    split
    · exact Nat.le_trans (by omega) (ih (pos + 4))
    · exact Nat.le_refl _

theorem readFields_le (data : List Nat) :
    ∀ count pos acc, pos ≤ (readFields data count pos acc).2 := by
  intro count
  induction count with
  | zero => intro pos acc; exact Nat.le_refl _
  | succ count ih =>
    intro pos acc
    rw [readFields]
    split
    · exact Nat.le_refl _
    · exact Nat.le_trans (Nat.le_trans (by omega)
        (alignUp4_le (pos + 4 + readLE4 data pos))) (ih _ _)

theorem iterBody_le (data : List Nat) (pats : List (String → Bool)) (pos keyLen : Nat) :
    pos ≤ (iterBody data pats pos keyLen).pos := by
  have h1 : pos ≤ alignUp4 (pos + keyLen) :=
    Nat.le_trans (by omega) (alignUp4_le (pos + keyLen))
  have h2 := readFields_le data (readLE4 data (alignUp4 (pos + keyLen) + 4))
    (alignUp4 (pos + keyLen) + 4 + 4) []
  have h3 := readFields_le data (readLE4 data (alignUp4 (pos + keyLen)))
    (alignUp4 (pos + keyLen) + 4) []
  simp only [iterBody]
  split
  · dsimp only
    omega
  · split
    · split
      · dsimp only
        omega
      · dsimp only
        split <;> omega
    · dsimp only
      split <;> omega

theorem iterStep_le (data : List Nat) (pats : List (String → Bool)) (pos : Nat) :
    pos ≤ (iterStep data pats pos).pos := by
  have h0 : pos ≤ alignUp4 pos := alignUp4_le pos
  have hz := zeroScan_le data (data.length + 1) (alignUp4 pos + 4)
  have hb1 := iterBody_le data pats
    (zeroScan data (data.length + 1) (alignUp4 pos + 4) + 4)
    (readLE4 data (zeroScan data (data.length + 1) (alignUp4 pos + 4)))
  have hb2 := iterBody_le data pats (alignUp4 pos + 4) (readLE4 data (alignUp4 pos))
  simp only [iterStep]
  split
  · dsimp only
    omega
  · split
    · split
      · dsimp only
        omega
      · split
        · dsimp only
          omega
        · omega
    · omega

theorem iterStep_cont_ge (data : List Nat) (pats : List (String → Bool)) (pos : Nat) :
    (iterStep data pats pos).cont = true → pos + 4 ≤ (iterStep data pats pos).pos := by
  have h0 : pos ≤ alignUp4 pos := alignUp4_le pos
  have hz := zeroScan_le data (data.length + 1) (alignUp4 pos + 4)
  have hb1 := iterBody_le data pats
    (zeroScan data (data.length + 1) (alignUp4 pos + 4) + 4)
    (readLE4 data (zeroScan data (data.length + 1) (alignUp4 pos + 4)))
  have hb2 := iterBody_le data pats (alignUp4 pos + 4) (readLE4 data (alignUp4 pos))
  simp only [iterStep]
  split
  · intro h
    simp at h
  · split
    · split
      · intro h
        simp at h
      · split
        · intro h
          simp at h
        · intro _
          omega
    · intro _
      omega

theorem parseLoopF_isSome (data : List Nat) (pats : List (String → Bool)) :
    ∀ fuel pos acc, data.length - pos < fuel →
      (parseLoopF data pats fuel pos acc).isSome = true := by
  intro fuel
  induction fuel with
  | zero => intro pos acc h; omega
  | succ f ih =>
    intro pos acc h
    simp only [parseLoopF]
    split
    · split
      · apply ih
        have h1 := iterStep_cont_ge data pats pos (by assumption)
        omega
      · rfl
    · rfl

/-! ### Filter commutation: exclusion patterns only remove records -/

/-- The record-retention predicate of the exclusion filter: a record is
kept when no pattern matches at the start of its key. -/
def keepRec (pats : List (String → Bool)) (r : String × List String) : Bool :=
  !(pats.any (fun p => p r.1))

/-- The record emitted by `iterBody`, as the exclusion-filtered version of
what it emits with no patterns. -/
theorem emit_filter (pats : List (String → Bool)) (key : String) (fs : List String) :
    (if (pats.any fun p => p key) = true then none else some (key, fs)) =
      Option.filter (keepRec pats)
        (if (List.any ([] : List (String → Bool)) fun p => p key) = true then none
         else some (key, fs)) := by
  cases hany : pats.any fun p => p key <;>
    simp [Option.filter, keepRec, hany]

theorem iterBody_pos_pats (data : List Nat) (pats : List (String → Bool)) (pos keyLen : Nat) :
    (iterBody data pats pos keyLen).pos = (iterBody data [] pos keyLen).pos := by
  simp only [iterBody]
  split
  · rfl
  · split
    · split <;> rfl
    · rfl

theorem iterBody_cont_pats (data : List Nat) (pats : List (String → Bool)) (pos keyLen : Nat) :
    (iterBody data pats pos keyLen).cont = (iterBody data [] pos keyLen).cont := by
  simp only [iterBody]
  split
  · rfl
  · split
    · split <;> rfl
    · rfl

theorem iterBody_emitted_pats (data : List Nat) (pats : List (String → Bool)) (pos keyLen : Nat) :
    (iterBody data pats pos keyLen).emitted =
      Option.filter (keepRec pats) (iterBody data [] pos keyLen).emitted := by
  simp only [iterBody]
  split
  · rfl
  · split
    · split
      · rfl
      · exact emit_filter pats _ _
    · exact emit_filter pats _ _

theorem iterStep_pos_pats (data : List Nat) (pats : List (String → Bool)) (pos : Nat) :
    (iterStep data pats pos).pos = (iterStep data [] pos).pos := by
  simp only [iterStep]
  split
  · rfl
  · split
    · split
      · rfl
      · split
        · rfl
        · exact iterBody_pos_pats data pats _ _
    · exact iterBody_pos_pats data pats _ _

theorem iterStep_cont_pats (data : List Nat) (pats : List (String → Bool)) (pos : Nat) :
    (iterStep data pats pos).cont = (iterStep data [] pos).cont := by
  simp only [iterStep]
  split
  · rfl
  · split
    · split
      · rfl
      · split
        · rfl
        · exact iterBody_cont_pats data pats _ _
    · exact iterBody_cont_pats data pats _ _

theorem iterStep_emitted_pats (data : List Nat) (pats : List (String → Bool)) (pos : Nat) :
    (iterStep data pats pos).emitted =
      Option.filter (keepRec pats) (iterStep data [] pos).emitted := by
  simp only [iterStep]
  split
  · rfl
  · split
    · split
      · rfl
      · split
        · rfl
        · exact iterBody_emitted_pats data pats _ _
    · exact iterBody_emitted_pats data pats _ _

theorem parseLoopF_pats (data : List Nat) (pats : List (String → Bool)) :
    ∀ fuel pos acc,
      parseLoopF data pats fuel pos (acc.filter (keepRec pats)) =
        (parseLoopF data [] fuel pos acc).map (List.filter (keepRec pats)) := by
  intro fuel
  induction fuel with
  | zero => intro pos acc; rfl
  | succ f ih =>
    intro pos acc
    simp only [parseLoopF]
    split
    · rw [iterStep_cont_pats data pats pos, iterStep_pos_pats data pats pos,
        iterStep_emitted_pats data pats pos]
      cases hemit : (iterStep data [] pos).emitted with
      | none =>
        simp only [Option.filter]
        split
        · exact ih _ _
        · rfl
      | some r =>
        cases hkeep : keepRec pats r with
        | true =>
          have hf : Option.filter (keepRec pats) (some r) = some r := by
            simp [Option.filter, hkeep]
          rw [hf]
          have hacc : acc.filter (keepRec pats) ++ [r] = (acc ++ [r]).filter (keepRec pats) := by
            simp [List.filter_append, hkeep]
          simp only [hacc]
          split
          · exact ih _ _
          · rfl
        | false =>
          have hf : Option.filter (keepRec pats) (some r) = none := by
            simp [Option.filter, hkeep]
          rw [hf]
          have hacc : acc.filter (keepRec pats) = (acc ++ [r]).filter (keepRec pats) := by
            simp [List.filter_append, hkeep]
          simp only [hacc]
          split
          · exact ih _ _
          · rfl
    · rfl

theorem parse_records_filter (data : List Nat) (pats : List (String → Bool)) :
    parse_records data pats = (parse_records data []).filter (keepRec pats) := by
  unfold parse_records
  have h0 : ([] : List (String × List String)) = [].filter (keepRec pats) := rfl
  rw [h0, parseLoopF_pats data pats (data.length + 1) 60 []]
  have hs := parseLoopF_isSome data [] (data.length + 1) 60 [] (by omega)
  cases hl : parseLoopF data [] (data.length + 1) 60 [] with
  | none => rw [hl] at hs; simp at hs
  | some l => simp [hl]

/-! ### Resolver helper lemmas -/

theorem lookup_isSome_mem (k : String) :
    ∀ raw : List (String × String), (raw.lookup k).isSome = true → k ∈ raw.map Prod.fst := by
  intro raw
  induction raw with
  | nil => intro h; simp [List.lookup] at h
  | cons a as ih =>
    intro h
    rw [List.lookup] at h
    cases hk : k == a.1 with
    | true =>
      have : k = a.1 := by simpa using hk
      simp [this]
    | false =>
      rw [hk] at h
      simp only [List.map_cons, List.mem_cons]
      exact Or.inr (ih h)

theorem aliasRefOf_mem (raw : List (String × String)) (k r : String)
    (h : aliasRefOf (pyGet raw k) = some r) : k ∈ raw.map Prod.fst := by
  apply lookup_isSome_mem k raw
  cases hl : raw.lookup k with
  | some v => rfl
  | none =>
    have : pyGet raw k = "" := by simp [pyGet, hl]
    rw [this] at h
    simp [aliasRefOf] at h

theorem length_filter_mono {α : Type} (p q : α → Bool) (h : ∀ x, q x = true → p x = true) :
    ∀ l : List α, (l.filter q).length ≤ (l.filter p).length := by
  intro l
  induction l with
  | nil => exact Nat.le_refl _
  | cons a as ih =>
    cases hq : q a with
    | true =>
      have hp := h a hq
      simp [List.filter_cons, hq, hp] <;> omega
    | false =>
      cases hp : p a with
      | true => simp [List.filter_cons, hq, hp] <;> omega
      | false => simp [List.filter_cons, hq, hp] <;> omega

theorem length_filter_strict {α : Type} (p q : α → Bool) (k : α)
    (h : ∀ x, q x = true → p x = true) (hp : p k = true) (hq : q k = false) :
    ∀ l : List α, k ∈ l → (l.filter q).length < (l.filter p).length := by
  intro l
  induction l with
  | nil => intro hm; simp at hm
  | cons a as ih =>
    intro hm
    rcases List.mem_cons.mp hm with rfl | hm2
    · have hmono := length_filter_mono p q h as
      simp [List.filter_cons, hp, hq] <;> omega
    · cases hqa : q a with
      | true =>
        have hpa := h a hqa
        have hlt := ih hm2
        simp [List.filter_cons, hqa, hpa] <;> omega
      | false =>
        cases hpa : p a with
        | true =>
          have hlt := ih hm2
          simp [List.filter_cons, hqa, hpa] <;> omega
        | false =>
          have hlt := ih hm2
          simp [List.filter_cons, hqa, hpa] <;> omega

theorem resolveF_isSome (raw : List (String × String)) :
    ∀ fuel k visited res,
      ((raw.map Prod.fst).filter (fun x => !(decide (x ∈ visited)))).length < fuel →
      (resolveF raw fuel k visited res).isSome = true := by
  intro fuel
  induction fuel with
  | zero => intro k visited res h; omega
  | succ f ih =>
    intro k visited res h
    rw [resolveF]
    cases hres : res k with
    | some v => rfl
    | none =>
      by_cases hvis : k ∈ visited
      · dsimp only
        rw [if_pos hvis]
        rfl
      · dsimp only
        rw [if_neg hvis]
        cases href : aliasRefOf (pyGet raw k) with
        | none => rfl
        | some ref =>
          have hmem : k ∈ raw.map Prod.fst := aliasRefOf_mem raw k ref href
          have hlt : ((raw.map Prod.fst).filter
              (fun x => !(decide (x ∈ k :: visited)))).length <
              ((raw.map Prod.fst).filter (fun x => !(decide (x ∈ visited)))).length := by
            refine length_filter_strict (fun x => !(decide (x ∈ visited)))
              (fun x => !(decide (x ∈ k :: visited))) k ?_ ?_ ?_ (raw.map Prod.fst) hmem
            · intro x hx
              simp only [Bool.not_eq_true', decide_eq_false_iff_not, List.mem_cons] at hx ⊢
              intro hc
              exact hx (Or.inr hc)
            · simp [hvis]
            · simp
          have hrec := ih ref (k :: visited) res (by omega)
          dsimp only
          cases hrec2 : resolveF raw f ref (k :: visited) res with
          | none => rw [hrec2] at hrec; simp at hrec
          | some pr => cases pr with
            | mk rv res2 => rfl

theorem resolveF_mono (raw : List (String × String)) :
    ∀ fuel k visited res v res2, resolveF raw fuel k visited res = some (v, res2) →
      ∀ x w, res x = some w → res2 x = some w := by
  intro fuel
  induction fuel with
  | zero => intro k visited res v res2 h; simp [resolveF] at h
  | succ f ih =>
    intro k visited res v res2 h x w hx
    rw [resolveF] at h
    cases hres : res k with
    | some v0 =>
      rw [hres] at h
      dsimp only at h
      simp only [Option.some.injEq, Prod.mk.injEq] at h
      rw [← h.2]
      exact hx
    | none =>
      rw [hres] at h
      dsimp only at h
      by_cases hvis : k ∈ visited
      · rw [if_pos hvis] at h
        simp only [Option.some.injEq, Prod.mk.injEq] at h
        rw [← h.2]
        exact hx
      · rw [if_neg hvis] at h
        cases href : aliasRefOf (pyGet raw k) with
        | some ref =>
          rw [href] at h
          dsimp only at h
          cases hrec : resolveF raw f ref (k :: visited) res with
          | none => rw [hrec] at h; simp at h
          | some pr =>
            cases pr with
            | mk rv res3 =>
              rw [hrec] at h
              dsimp only at h
              simp only [Option.some.injEq, Prod.mk.injEq] at h
              have hx3 : res3 x = some w := ih ref (k :: visited) res rv res3 hrec x w hx
              rw [← h.2]
              unfold rmInsert
              by_cases hxk : x = k
              · rw [hxk] at hx; rw [hx] at hres; exact absurd hres (by simp)
              · simp [hxk, hx3]
        | none =>
          rw [href] at h
          dsimp only at h
          simp only [Option.some.injEq, Prod.mk.injEq] at h
          rw [← h.2]
          unfold rmInsert
          by_cases hxk : x = k
          · rw [hxk] at hx; rw [hx] at hres; exact absurd hres (by simp)
          · simp [hxk, hx]

theorem resolveF_covers (raw : List (String × String)) :
    ∀ fuel k visited res v res2, resolveF raw fuel k visited res = some (v, res2) →
      k ∉ visited → res2 k = some v := by
  intro fuel
  induction fuel with
  | zero => intro k visited res v res2 h; simp [resolveF] at h
  | succ f ih =>
    intro k visited res v res2 h hvis
    rw [resolveF] at h
    cases hres : res k with
    | some v0 =>
      rw [hres] at h
      dsimp only at h
      simp only [Option.some.injEq, Prod.mk.injEq] at h
      rw [← h.2, hres, h.1]
    | none =>
      rw [hres] at h
      dsimp only at h
      rw [if_neg hvis] at h
      cases href : aliasRefOf (pyGet raw k) with
      | some ref =>
        rw [href] at h
        dsimp only at h
        cases hrec : resolveF raw f ref (k :: visited) res with
        | none => rw [hrec] at h; simp at h
        | some pr =>
          cases pr with
          | mk rv res3 =>
            rw [hrec] at h
            dsimp only at h
            simp only [Option.some.injEq, Prod.mk.injEq] at h
            rw [← h.2, ← h.1]
            simp [rmInsert]
      | none =>
        rw [href] at h
        dsimp only at h
        simp only [Option.some.injEq, Prod.mk.injEq] at h
        rw [← h.2, ← h.1]
        simp [rmInsert]

theorem resolveTop_mono (raw : List (String × String)) (res : RMap) (k x w : String)
    (hx : res x = some w) : resolveTop raw res k x = some w := by
  unfold resolveTop
  cases hr : resolveF raw (raw.length + 1) k [] res with
  | none => exact hx
  | some pr =>
    cases pr with
    | mk v res2 => exact resolveF_mono raw _ k [] res v res2 hr x w hx

theorem resolveTop_covers (raw : List (String × String)) (res : RMap) (k : String) :
    ((resolveTop raw res k) k).isSome = true := by
  unfold resolveTop
  have hs := resolveF_isSome raw (raw.length + 1) k [] res
    (by
      have hle : ((raw.map Prod.fst).filter
          (fun x => !(decide (x ∈ ([] : List String))))).length ≤ raw.length := by
        have h1 := List.length_filter_le (fun x => !(decide (x ∈ ([] : List String))))
          (raw.map Prod.fst)
        simpa using h1
      omega)
  cases hr : resolveF raw (raw.length + 1) k [] res with
  | none => rw [hr] at hs; simp at hs
  | some pr =>
    cases pr with
    | mk v res2 =>
      have := resolveF_covers raw _ k [] res v res2 hr (by simp)
      dsimp only
      rw [this]
      rfl

theorem foldl_resolveTop_mono (raw : List (String × String)) :
    ∀ (order : List String) (res : RMap) (x w : String), res x = some w →
      (order.foldl (resolveTop raw) res) x = some w := by
  intro order
  induction order with
  | nil => intro res x w hx; exact hx
  | cons a as ih =>
    intro res x w hx
    exact ih (resolveTop raw res a) x w (resolveTop_mono raw res a x w hx)

theorem resolveAllOrder_covers (raw : List (String × String)) :
    ∀ (order : List String) (res : RMap) (k : String), k ∈ order →
      ((order.foldl (resolveTop raw) res) k).isSome = true := by
  intro order
  induction order with
  | nil => intro res k h; simp at h
  | cons a as ih =>
    intro res k h
    rcases List.mem_cons.mp h with rfl | h2
    · have hc := resolveTop_covers raw res k
      cases hv : resolveTop raw res k k with
      | none => rw [hv] at hc; simp at hc
      | some w =>
        rw [List.foldl_cons,
          foldl_resolveTop_mono raw as (resolveTop raw res k) k w hv]
        rfl
    · rw [List.foldl_cons]
      exact ih (resolveTop raw res a) k h2

/-! ### Order-independence machinery

Under an acyclicity hypothesis — a rank function that strictly decreases
along alias references — one top-level `resolve(k)` call is characterized
by two fuel-indexed functions: `walkF` (the value obtained by following the
alias chain from `k` until a memoized id or a terminal value) and
`touchedF` (the set of ids the call newly memoizes: the chain prefix before
the first memoized id). -/

/-- The value `resolve(k)` returns from memo table `res`: follow the chain,
stopping at a memoized id or a non-alias value. -/
def walkF (raw : List (String × String)) (res : RMap) : Nat → String → String
  | 0, _ => ""
  | f + 1, k =>
    match res k with
    | some v => v
    | none =>
      match aliasRefOf (pyGet raw k) with
      | some ref => walkF raw res f ref
      | none => pyGet raw k

/-- Whether `x` is among the ids that `resolve(k)` newly memoizes from memo
table `res`: the not-yet-memoized chain prefix starting at `k`. -/
def touchedF (raw : List (String × String)) (res : RMap) : Nat → String → String → Bool
  | 0, _, _ => false
  | f + 1, k, x =>
    match res k with
    | some _ => false
    | none =>
      match aliasRefOf (pyGet raw k) with
      | some ref => decide (x = k) || touchedF raw res f ref x
      | none => decide (x = k)

/-- Characterization of `resolveF` under acyclicity: with enough fuel and a
visited set of strictly higher rank, `resolve(k)` returns the chain value
`walkF` and extends the memo table exactly on the `touchedF` ids, all
mapped to that value. (The cyclic-sentinel branch is unreachable because
rank strictly decreases along the chain.) -/
theorem resolveF_walk (raw : List (String × String)) (rank : String → Nat)
    (hrank : ∀ k r, aliasRefOf (pyGet raw k) = some r → rank r < rank k) :
    ∀ fuel k visited (res : RMap), rank k < fuel →
      (∀ v, v ∈ visited → rank k < rank v) →
      resolveF raw fuel k visited res =
        some (walkF raw res fuel k,
          fun x => if touchedF raw res fuel k x = true
                   then some (walkF raw res fuel k) else res x) := by
  intro fuel
  induction fuel with
  | zero => intro k visited res hf hvis; omega
  | succ f ih =>
    intro k visited res hf hvis
    have hknv : k ∉ visited := fun hm => absurd (hvis k hm) (lt_irrefl _)
    rw [resolveF]
    cases hres : res k with
    | some v =>
      have hw : walkF raw res (f + 1) k = v := by rw [walkF, hres]
      have ht : ∀ x, touchedF raw res (f + 1) k x = false := by
        intro x; rw [touchedF, hres]
      have hfun : (fun x => if touchedF raw res (f + 1) k x = true
          then some (walkF raw res (f + 1) k) else res x) = res := by
        funext x
        rw [ht x]
        simp
      rw [hfun, hw]
    | none =>
      dsimp only
      rw [if_neg hknv]
      cases href : aliasRefOf (pyGet raw k) with
      | none =>
        dsimp only
        have hw : walkF raw res (f + 1) k = pyGet raw k := by
          rw [walkF, hres, href]
        have ht : ∀ x, touchedF raw res (f + 1) k x = decide (x = k) := by
          intro x; rw [touchedF, hres, href]
        have hfun : (fun x => if touchedF raw res (f + 1) k x = true
            then some (walkF raw res (f + 1) k) else res x) =
            rmInsert k (pyGet raw k) res := by
          funext x
          rw [ht x, hw]
          unfold rmInsert
          by_cases hxk : x = k
          · simp [hxk]
          · simp [hxk]
        rw [hfun, hw]
      | some ref =>
        dsimp only
        have href2 : rank ref < rank k := hrank k ref href
        have hih := ih ref (k :: visited) res
          (lt_of_lt_of_le href2 (Nat.lt_succ_iff.mp hf))
          (by
            intro v hv
            rcases List.mem_cons.mp hv with rfl | hv2
            · exact href2
            · exact lt_trans href2 (hvis v hv2))
        rw [hih]
        dsimp only
        have hw : walkF raw res (f + 1) k = walkF raw res f ref := by
          rw [walkF, hres, href]
        have ht : ∀ x, touchedF raw res (f + 1) k x =
            (decide (x = k) || touchedF raw res f ref x) := by
          intro x; rw [touchedF, hres, href]
        have hfun : rmInsert k (walkF raw res f ref)
            (fun x => if touchedF raw res f ref x = true
                      then some (walkF raw res f ref) else res x) =
            (fun x => if touchedF raw res (f + 1) k x = true
                      then some (walkF raw res (f + 1) k) else res x) := by
          funext x
          rw [ht x, hw]
          unfold rmInsert
          by_cases hxk : x = k
          · simp [hxk]
          · simp [hxk]
        rw [hfun, hw]

/-- The chain value does not depend on the fuel once the fuel exceeds the
rank of the start id. -/
theorem walkF_stable (raw : List (String × String)) (rank : String → Nat)
    (hrank : ∀ k r, aliasRefOf (pyGet raw k) = some r → rank r < rank k) (res : RMap) :
    ∀ f g k, rank k < f → rank k < g → walkF raw res f k = walkF raw res g k := by
  intro f
  induction f with
  | zero => intro g k hf hg; omega
  | succ f ih =>
    intro g k hf hg
    cases g with
    | zero => omega
    | succ g =>
      rw [walkF, walkF]
      cases hres : res k with
      | some v => rfl
      | none =>
        dsimp only
        cases href : aliasRefOf (pyGet raw k) with
        | none => rfl
        | some ref =>
          dsimp only
          have href2 := hrank k ref href
          exact ih g ref (by omega) (by omega)

/-- The touched set does not depend on the fuel once the fuel exceeds the
rank of the start id. -/
theorem touchedF_stable (raw : List (String × String)) (rank : String → Nat)
    (hrank : ∀ k r, aliasRefOf (pyGet raw k) = some r → rank r < rank k) (res : RMap) :
    ∀ f g k x, rank k < f → rank k < g →
      touchedF raw res f k x = touchedF raw res g k x := by
  intro f
  induction f with
  | zero => intro g k x hf hg; omega
  | succ f ih =>
    intro g k x hf hg
    cases g with
    | zero => omega
    | succ g =>
      rw [touchedF, touchedF]
      cases hres : res k with
      | some v => rfl
      | none =>
        dsimp only
        cases href : aliasRefOf (pyGet raw k) with
        | none => rfl
        | some ref =>
          dsimp only
          have href2 := hrank k ref href
          rw [ih g ref x (by omega) (by omega)]

/-- Every id in the touched set of `resolve(k)` has the same chain value as
`k` itself: the whole newly memoized prefix gets one value. -/
theorem touchedF_walk (raw : List (String × String)) (rank : String → Nat)
    (hrank : ∀ k r, aliasRefOf (pyGet raw k) = some r → rank r < rank k) (res : RMap) :
    ∀ f k x, rank k < f → touchedF raw res f k x = true →
      ∀ g, rank x < g → walkF raw res g x = walkF raw res f k := by
  intro f
  induction f with
  | zero => intro k x hf; omega
  | succ f ih =>
    intro k x hf ht g hg
    rw [touchedF] at ht
    cases hres : res k with
    | some v => rw [hres] at ht; simp at ht
    | none =>
      rw [hres] at ht
      dsimp only at ht
      cases href : aliasRefOf (pyGet raw k) with
      | none =>
        rw [href] at ht
        dsimp only at ht
        have hxk : x = k := by simpa using ht
        rw [hxk]
        exact walkF_stable raw rank hrank res g (f + 1) k (hxk ▸ hg) hf
      | some ref =>
        rw [href] at ht
        dsimp only at ht
        have href2 := hrank k ref href
        have hwk : walkF raw res (f + 1) k = walkF raw res f ref := by
          rw [walkF, hres, href]
        rcases Bool.or_eq_true_iff.mp ht with h1 | h2
        · have hxk : x = k := by simpa using h1
          rw [hxk]
          exact walkF_stable raw rank hrank res g (f + 1) k (hxk ▸ hg) hf
        · rw [hwk]
          exact ih ref x (by omega) h2 g hg

/-- Unfolding equation: a memoized id touches nothing. -/
theorem touchedF_eq_some (raw : List (String × String)) (res : RMap) (f : Nat)
    (k x v : String) (hres : res k = some v) :
    touchedF raw res (f + 1) k x = false := by
  rw [touchedF, hres]

/-- Unfolding equation for an unmemoized alias id. -/
theorem touchedF_eq_alias (raw : List (String × String)) (res : RMap) (f : Nat)
    (k x ref : String) (hres : res k = none)
    (href : aliasRefOf (pyGet raw k) = some ref) :
    touchedF raw res (f + 1) k x = (decide (x = k) || touchedF raw res f ref x) := by
  rw [touchedF, hres, href]

/-- Unfolding equation for an unmemoized terminal id. -/
theorem touchedF_eq_term (raw : List (String × String)) (res : RMap) (f : Nat)
    (k x : String) (hres : res k = none)
    (href : aliasRefOf (pyGet raw k) = none) :
    touchedF raw res (f + 1) k x = decide (x = k) := by
  rw [touchedF, hres, href]

/-- Unfolding equation: a memoized id walks to its memoized value. -/
theorem walkF_eq_some (raw : List (String × String)) (res : RMap) (f : Nat)
    (k v : String) (hres : res k = some v) :
    walkF raw res (f + 1) k = v := by
  rw [walkF, hres]

/-- Unfolding equation for an unmemoized alias id. -/
theorem walkF_eq_alias (raw : List (String × String)) (res : RMap) (f : Nat)
    (k ref : String) (hres : res k = none)
    (href : aliasRefOf (pyGet raw k) = some ref) :
    walkF raw res (f + 1) k = walkF raw res f ref := by
  rw [walkF, hres, href]

/-- Unfolding equation for an unmemoized terminal id. -/
theorem walkF_eq_term (raw : List (String × String)) (res : RMap) (f : Nat)
    (k : String) (hres : res k = none)
    (href : aliasRefOf (pyGet raw k) = none) :
    walkF raw res (f + 1) k = pyGet raw k := by
  rw [walkF, hres, href]

/-- Touched sets are closed under chaining: any id touched from a touched
id is itself touched from the original start. -/
theorem touchedF_trans (raw : List (String × String)) (rank : String → Nat)
    (hrank : ∀ k r, aliasRefOf (pyGet raw k) = some r → rank r < rank k) (res : RMap) :
    ∀ f k x, rank k < f → touchedF raw res f k x = true →
      ∀ g y, rank x < g → touchedF raw res g x y = true →
        touchedF raw res f k y = true := by
  intro f
  induction f with
  | zero => intro k x hf; omega
  | succ f ih =>
    intro k x hf ht g y hg hty
    cases hres : res k with
    | some v =>
      rw [touchedF_eq_some raw res f k x v hres] at ht
      exact absurd ht (by simp)
    | none =>
      cases href : aliasRefOf (pyGet raw k) with
      | none =>
        rw [touchedF_eq_term raw res f k x hres href] at ht
        have hxk : x = k := by simpa using ht
        subst hxk
        rw [touchedF_stable raw rank hrank res (f + 1) g x y hf hg]
        exact hty
      | some ref =>
        rw [touchedF_eq_alias raw res f k x ref hres href] at ht
        rcases Bool.or_eq_true_iff.mp ht with h1 | h2
        · have hxk : x = k := by simpa using h1
          subst hxk
          rw [touchedF_stable raw rank hrank res (f + 1) g x y hf hg]
          exact hty
        · have href2 := hrank k ref href
          have h3 := ih ref x (by omega) h2 g y hg hty
          rw [touchedF_eq_alias raw res f k y ref hres href, h3]
          simp

/-- Chain values are unchanged by a memo-table update that records the
(correct) chain values of one resolve call. -/
theorem walkF_upd (raw : List (String × String)) (rank : String → Nat)
    (hrank : ∀ k r, aliasRefOf (pyGet raw k) = some r → rank r < rank k)
    (res : RMap) (B : Nat) (k1 : String) (hB : rank k1 < B) :
    ∀ f k, rank k < f →
      walkF raw (fun z => if touchedF raw res B k1 z = true
                          then some (walkF raw res B k1) else res z) f k =
        walkF raw res f k := by
  intro f
  induction f with
  | zero => intro k hf; omega
  | succ f ih =>
    intro k hf
    cases hT1 : touchedF raw res B k1 k with
    | true =>
      have hst : (fun z => if touchedF raw res B k1 z = true
          then some (walkF raw res B k1) else res z) k = some (walkF raw res B k1) := by
        simp [hT1]
      rw [walkF_eq_some raw _ f k (walkF raw res B k1) hst]
      exact (touchedF_walk raw rank hrank res B k1 k hB hT1 (f + 1) hf).symm
    | false =>
      have hst : (fun z => if touchedF raw res B k1 z = true
          then some (walkF raw res B k1) else res z) k = res k := by
        simp [hT1]
      cases hres : res k with
      | some v =>
        rw [walkF_eq_some raw _ f k v (hst.trans hres),
          walkF_eq_some raw res f k v hres]
      | none =>
        cases href : aliasRefOf (pyGet raw k) with
        | some ref =>
          have href2 := hrank k ref href
          rw [walkF_eq_alias raw _ f k ref (hst.trans hres) href,
            walkF_eq_alias raw res f k ref hres href]
          exact ih ref (by omega)
        | none =>
          rw [walkF_eq_term raw _ f k (hst.trans hres) href,
            walkF_eq_term raw res f k hres href]

/-- Touched sets after a memo-table update: exactly the previously touched
ids that the update did not already record. -/
theorem touchedF_upd (raw : List (String × String)) (rank : String → Nat)
    (hrank : ∀ k r, aliasRefOf (pyGet raw k) = some r → rank r < rank k)
    (res : RMap) (B : Nat) (k1 : String) (hB : rank k1 < B) :
    ∀ f k x, rank k < f →
      touchedF raw (fun z => if touchedF raw res B k1 z = true
                             then some (walkF raw res B k1) else res z) f k x =
        (touchedF raw res f k x && !(touchedF raw res B k1 x)) := by
  intro f
  induction f with
  | zero => intro k x hf; omega
  | succ f ih =>
    intro k x hf
    cases hT1 : touchedF raw res B k1 k with
    | true =>
      have hst : (fun z => if touchedF raw res B k1 z = true
          then some (walkF raw res B k1) else res z) k = some (walkF raw res B k1) := by
        simp [hT1]
      rw [touchedF_eq_some raw _ f k x (walkF raw res B k1) hst]
      cases hTx : touchedF raw res (f + 1) k x with
      | false => simp
      | true =>
        have hT1x := touchedF_trans raw rank hrank res B k1 k hB hT1 (f + 1) x hf hTx
        simp [hT1x]
    | false =>
      have hst : (fun z => if touchedF raw res B k1 z = true
          then some (walkF raw res B k1) else res z) k = res k := by
        simp [hT1]
      cases hres : res k with
      | some v =>
        rw [touchedF_eq_some raw _ f k x v (hst.trans hres),
          touchedF_eq_some raw res f k x v hres]
        simp
      | none =>
        cases href : aliasRefOf (pyGet raw k) with
        | some ref =>
          have href2 := hrank k ref href
          rw [touchedF_eq_alias raw _ f k x ref (hst.trans hres) href,
            touchedF_eq_alias raw res f k x ref hres href,
            ih ref x (by omega)]
          by_cases hxk : x = k
          · subst hxk
            simp [hT1]
          · simp [hxk]
        | none =>
          rw [touchedF_eq_term raw _ f k x (hst.trans hres) href,
            touchedF_eq_term raw res f k x hres href]
          by_cases hxk : x = k
          · subst hxk
            simp [hT1]
          · simp [hxk]

/-- Characterization of one top-level `resolve(k)` call under acyclicity:
the new memo table maps the touched ids to the chain value and keeps
everything else. -/
theorem resolveTop_char (raw : List (String × String)) (rank : String → Nat)
    (hrank : ∀ k r, aliasRefOf (pyGet raw k) = some r → rank r < rank k)
    (res : RMap) (k : String) (hk : rank k < raw.length + 1) :
    resolveTop raw res k =
      fun x => if touchedF raw res (raw.length + 1) k x = true
               then some (walkF raw res (raw.length + 1) k) else res x := by
  unfold resolveTop
  rw [resolveF_walk raw rank hrank (raw.length + 1) k [] res hk
    (by intro v hv; simp at hv)]

/-- Two top-level resolve calls commute on any memo table (under
acyclicity). -/
theorem resolveTop_comm (raw : List (String × String)) (rank : String → Nat)
    (hrank : ∀ k r, aliasRefOf (pyGet raw k) = some r → rank r < rank k)
    (hbound : ∀ k, rank k ≤ raw.length) (res : RMap) (k1 k2 : String) :
    resolveTop raw (resolveTop raw res k1) k2 =
      resolveTop raw (resolveTop raw res k2) k1 := by
  have hb1 : rank k1 < raw.length + 1 := Nat.lt_succ_of_le (hbound k1)
  have hb2 : rank k2 < raw.length + 1 := Nat.lt_succ_of_le (hbound k2)
  rw [resolveTop_char raw rank hrank res k1 hb1,
    resolveTop_char raw rank hrank res k2 hb2,
    resolveTop_char raw rank hrank _ k2 hb2,
    resolveTop_char raw rank hrank _ k1 hb1]
  funext x
  rw [walkF_upd raw rank hrank res (raw.length + 1) k1 hb1 (raw.length + 1) k2 hb2,
    touchedF_upd raw rank hrank res (raw.length + 1) k1 hb1 (raw.length + 1) k2 x hb2,
    walkF_upd raw rank hrank res (raw.length + 1) k2 hb2 (raw.length + 1) k1 hb1,
    touchedF_upd raw rank hrank res (raw.length + 1) k2 hb2 (raw.length + 1) k1 x hb1]
  cases hT1 : touchedF raw res (raw.length + 1) k1 x with
  | false =>
    cases hT2 : touchedF raw res (raw.length + 1) k2 x with
    | false => simp [hT1, hT2]
    | true => simp [hT1, hT2]
  | true =>
    cases hT2 : touchedF raw res (raw.length + 1) k2 x with
    | false => simp [hT1, hT2]
    | true =>
      have e1 := touchedF_walk raw rank hrank res (raw.length + 1) k1 x hb1 hT1
        (rank x + 1) (Nat.lt_succ_self _)
      have e2 := touchedF_walk raw rank hrank res (raw.length + 1) k2 x hb2 hT2
        (rank x + 1) (Nat.lt_succ_self _)
      simp only [hT1, hT2, Bool.not_true, Bool.and_false, Bool.false_eq_true,
        if_false, if_true]
      rw [← e1, ← e2]

/-- Folding top-level resolves over two permuted orders gives the same memo
table (under acyclicity). -/
theorem foldl_resolveTop_perm (raw : List (String × String)) (rank : String → Nat)
    (hrank : ∀ k r, aliasRefOf (pyGet raw k) = some r → rank r < rank k)
    (hbound : ∀ k, rank k ≤ raw.length) :
    ∀ o1 o2 : List String, o1.Perm o2 → ∀ res : RMap,
      o1.foldl (resolveTop raw) res = o2.foldl (resolveTop raw) res := by
  intro o1 o2 hp
  induction hp with
  | nil => intro res; rfl
  | cons a p ih =>
    intro res
    rw [List.foldl_cons, List.foldl_cons]
    exact ih _
  | swap a b l =>
    intro res
    rw [List.foldl_cons, List.foldl_cons, List.foldl_cons, List.foldl_cons,
      resolveTop_comm raw rank hrank hbound res b a]
  | trans p1 p2 ih1 ih2 =>
    intro res
    rw [ih1, ih2]

/-- When strict UTF-8 decoding succeeds, the `errors="ignore"` decoding
returns the same characters (no subpart is ever skipped). -/
theorem utf8IgnoreGo_of_strict :
    ∀ f l cs, utf8StrictGo f l = some cs → utf8IgnoreGo f l = cs := by
  intro f
  induction f with
  | zero =>
    intro l cs h
    cases l with
    | nil =>
      rw [utf8StrictGo] at h
      simp only [Option.some.injEq] at h
      rw [utf8IgnoreGo, h]
    | cons b bs => rw [utf8StrictGo] at h; simp at h
  | succ f ih =>
    intro l cs h
    cases l with
    | nil =>
      rw [utf8StrictGo] at h
      simp only [Option.some.injEq] at h
      rw [utf8IgnoreGo, h]
    | cons b bs =>
      rw [utf8StrictGo] at h
      cases hseq : utf8Seq (b :: bs) with
      | none => rw [hseq] at h; simp at h
      | some cn =>
        cases cn with
        | mk c n =>
          rw [hseq] at h
          dsimp only at h
          cases hrec : utf8StrictGo f (List.drop (n - 1) bs) with
          | none => rw [hrec] at h; simp at h
          | some cs2 =>
            rw [hrec] at h
            rw [utf8IgnoreGo, hseq]
            dsimp only
            rw [ih _ _ hrec]
            have h2 : c :: cs2 = cs := by simpa using h
            exact h2

/-- Matching the full-match character-skin rule implies matching the
prefix-match rule with the same captured groups. -/
theorem charSkinFull_match (key n s : String)
    (h : charSkinFull key = some (n, s)) : charSkinMatch key = some (n, s) := by
  unfold charSkinFull at h
  unfold charSkinMatch
  cases hp : charSkinParse key.data with
  | none =>
    rw [hp] at h
    exact Option.noConfusion h
  | some t =>
    cases t with
    | mk a t2 =>
      cases t2 with
      | mk b rest =>
        cases rest with
        | nil =>
          rw [hp] at h
          have h3 : (some (a, b) : Option (String × String)) = some (n, s) := h
          have h4 : a = n ∧ b = s := by simpa using h3
          simp [h4.1, h4.2]
        | cons c cl =>
          rw [hp] at h
          exact Option.noConfusion h

/-- An acyclic two-entry raw map used as the order-independence witness. -/
def rawAB : List (String × String) := [("a", "\x7bb\x7d"), ("b", "hi")]

/-- A rank function witnessing acyclicity of `rawAB`. -/
def rankAB : String → Nat := fun k => if k = "a" then 1 else 0

theorem rankAB_decreasing :
    ∀ k r, aliasRefOf (pyGet rawAB k) = some r → rankAB r < rankAB k := by
  intro k r h
  by_cases hk : k = "a"
  · subst hk
    have h2 : aliasRefOf (pyGet rawAB "a") = some "b" := by decide
    rw [h2] at h
    injection h with h3
    subst h3
    decide
  · by_cases hk2 : k = "b"
    · subst hk2
      have h2 : aliasRefOf (pyGet rawAB "b") = none := by decide
      rw [h2] at h
      exact Option.noConfusion h
    · have hb1 : (k == "a") = false := beq_eq_false_iff_ne.mpr hk
      have hb2 : (k == "b") = false := beq_eq_false_iff_ne.mpr hk2
      have h3 : pyGet rawAB k = "" := by
        simp [pyGet, rawAB, List.lookup, hb1, hb2]
      rw [h3] at h
      exact Option.noConfusion h

theorem rankAB_bounded : ∀ k, rankAB k ≤ rawAB.length := by
  intro k
  by_cases hk : k = "a" <;> simp [rankAB, rawAB, hk]

/-! ### Claim theorems -/

/-- C1 (as stated, refuted): eager resolution of a raw map is NOT
order-independent in general. On the cyclic raw map
x alias y, y alias x, visiting the (same) ids in the two permutation orders
[x, y] and [y, x] produces resolved maps that disagree at x: the cyclic
sentinel names whichever cycle member was visited first. -/
theorem claim_resolution_order_cex :
    resolveAllOrder rawCyc ["x", "y"] "x" = some "[Cyclic alias: x]" ∧
    resolveAllOrder rawCyc ["y", "x"] "x" = some "[Cyclic alias: y]" ∧
    (["x", "y"] : List String).Perm ["y", "x"] ∧
    resolveAllOrder rawCyc ["x", "y"] ≠ resolveAllOrder rawCyc ["y", "x"] :=
  ⟨by decide, by decide, List.Perm.swap "y" "x" [],
   fun h => absurd (congrFun h "x") (by decide)⟩

/-- C1 (amended): for raw maps whose alias-reference graph is acyclic —
witnessed by a rank function that strictly decreases along alias references
and is bounded by the number of entries (any acyclic finite alias graph
admits one, e.g. the length of the longest alias chain from each id) —
eagerly resolving the ids in any two permutation orders produces the
identical resolved-map function. -/
theorem claim_resolution_order_acyclic (raw : List (String × String))
    (rank : String → Nat)
    (hrank : ∀ k r, aliasRefOf (pyGet raw k) = some r → rank r < rank k)
    (hbound : ∀ k, rank k ≤ raw.length)
    (o1 o2 : List String) (hperm : o1.Perm o2) :
    resolveAllOrder raw o1 = resolveAllOrder raw o2 :=
  foldl_resolveTop_perm raw rank hrank hbound o1 o2 hperm rmEmpty

/-- Witness for C1 (amended) at the concrete acyclic map `rawAB`. -/
theorem claim_resolution_order_acyclic_witness :
    resolveAllOrder rawAB ["a", "b"] = resolveAllOrder rawAB ["b", "a"] :=
  claim_resolution_order_acyclic rawAB rankAB rankAB_decreasing rankAB_bounded
    ["a", "b"] ["b", "a"] (List.Perm.swap "b" "a" [])

/-- C2 (as stated, refuted): `sanitize_text` applied to
a CR LF b CR c LF SPACE does not return the seven-character literal
a backslash n b backslash n c: the replacements happen before the trim, so
the trailing LF has already become the two-character escape and is not
trimmed away. -/
theorem claim_sanitize_cex : sanitize_text "a\r\nb\rc\n " ≠ "a\\nb\\nc" := by
  decide

/-- C2 (amended): `sanitize_text` replaces every CRLF, lone CR and lone LF
with the literal two-character escape and then trims; on the claimed input
the result is the nine-character literal a backslash n b backslash n c
backslash n (the trailing newline survives as an escape), while an input
whose ends are plain whitespace does trim down to the seven-character
form. -/
theorem claim_sanitize_amended :
    sanitize_text "a\r\nb\rc\n " = "a\\nb\\nc\\n" ∧
    sanitize_text " a\r\nb\rc " = "a\\nb\\nc" :=
  ⟨by decide, by decide⟩

/-- C3 (as stated, refuted): exclusion uses Python `re.match`, which
anchors only at the start of the key, not a full match. With the single
pattern `re.compile("ab")`, the record with key `abc` — of which the
pattern matches only a proper prefix, not the whole key — is dropped, even
though its full match fails; the following record `zz` is still decoded. -/
theorem claim_exclusion_cex :
    parse_records bufC3 [abMatchStart] = [("zz", ["B"])] ∧
    parse_records bufC3 [] = [("abc", ["A"]), ("zz", ["B"])] ∧
    abMatchStart "abc" = true ∧
    abFullMatch "abc" = false :=
  ⟨by decide, by decide, by decide, by decide⟩

/-- C3 (amended): a record is dropped exactly when some exclusion pattern
matches at the start of its key (match-at-start semantics); parsing always
advances identically with or without patterns, so the decoded record
sequence with patterns is precisely the unfiltered sequence with the
matching-key records removed — later records are unaffected. -/
theorem claim_exclusion_filter (data : List Nat) (pats : List (String → Bool)) :
    parse_records data pats = (parse_records data []).filter (keepRec pats) :=
  parse_records_filter data pats

/-- C4: the decoding loop never decreases the read offset at any step,
advances by at least 4 bytes on every continuing iteration, and — with the
fuel `parse_records` supplies — always terminates with a result (never an
exception): decoding halts, returning the records accumulated so far, when
a fixed-size read cannot be satisfied. -/
theorem claim_decoder_progress (data : List Nat) (pats : List (String → Bool)) (pos : Nat) :
    pos ≤ (iterStep data pats pos).pos ∧
    ((iterStep data pats pos).cont = true → pos + 4 ≤ (iterStep data pats pos).pos) ∧
    (∀ fuel acc, data.length - pos < fuel →
      (parseLoopF data pats fuel pos acc).isSome = true) :=
  ⟨iterStep_le data pats pos, iterStep_cont_ge data pats pos,
   fun fuel acc h => parseLoopF_isSome data pats fuel pos acc h⟩

/-- Witness for C4 on the concrete buffer `bufC3` (a continuing step) and
on the empty buffer (termination). -/
theorem claim_decoder_progress_witness :
    60 + 4 ≤ (iterStep bufC3 [] 60).pos ∧
    (parseLoopF [] [] 1 0 []).isSome = true :=
  ⟨(claim_decoder_progress bufC3 [] 60).2.1 (by decide),
   (claim_decoder_progress [] [] 0).2.2 1 [] (by decide)⟩

/-- C5 (as stated, refuted): an empty byte buffer is NOT surfaced as an
explicit failure — `parse_i2_asset_file` decodes it without error into the
empty record list (with the language-name list). Only a missing file
raises. -/
theorem claim_empty_buffer_cex :
    parse_i2_asset_file (some []) [] = Except.ok ([], LANGUAGES) := rfl

/-- C5 (amended): the only caller-facing explicit failure of
`parse_i2_asset_file` is absence of the input file itself; any supplied
byte buffer — including an empty one — degrades to a (possibly empty)
record list rather than an error. -/
theorem claim_error_only_missing_file (file : Option (List Nat))
    (pats : List (String → Bool)) :
    (∃ e, parse_i2_asset_file file pats = Except.error e) ↔ file = none := by
  cases file with
  | none =>
    constructor
    · intro _; rfl
    · intro _; exact ⟨"I2 .dat file not found", rfl⟩
  | some data =>
    constructor
    · intro he
      rcases he with ⟨e, he⟩
      exact absurd he (by simp [parse_i2_asset_file])
    · intro h; exact absurd h (by simp)

/-- Witness for C5 (amended): the missing-file case does error. -/
theorem claim_error_only_missing_file_witness :
    ∃ e, parse_i2_asset_file none [] = Except.error e :=
  (claim_error_only_missing_file none []).mpr rfl

/-- C6 (as stated, refuted): the key decoder never falls back to Latin-1.
The `try` branch decodes with `errors="ignore"`, which cannot raise, so the
`except` Latin-1 branch is dead code: on the non-UTF-8 key byte 0xFF the
code yields the empty string (the byte is ignored), whereas the spec's
described pipeline (strict UTF-8, then Latin-1 fallback) would yield the
character U+00FF. -/
theorem claim_key_decode_cex :
    decodeKey [255] = "" ∧
    decodeKeySpec [255] = "ÿ" ∧
    decodeKey [255] ≠ decodeKeySpec [255] :=
  ⟨by decide, by decide, by decide⟩

/-- C6 (amended): key bytes are decoded as UTF-8 with undecodable
sequences ignored, then trimmed; in particular whenever the key bytes are
valid UTF-8, the key is exactly the strict UTF-8 decoding, trimmed — the
Latin-1 branch is unreachable. -/
theorem claim_key_decode_utf8 (bs : List Nat) (cs : List Char)
    (h : utf8Strict bs = some cs) : decodeKey bs = pyStrip ⟨cs⟩ := by
  unfold decodeKey utf8Ignore
  rw [utf8IgnoreGo_of_strict bs.length bs cs h]

/-- Witness for C6 (amended) at the valid UTF-8 key bytes `ab`. -/
theorem claim_key_decode_utf8_witness :
    decodeKey [97, 98] = pyStrip ⟨['a', 'b']⟩ :=
  claim_key_decode_utf8 [97, 98] ['a', 'b'] (by decide)

/-- C7: on the cyclic raw map (x alias y, y alias x, plus the unrelated id
z), resolution maps both x and y to the cyclic sentinel naming the cycle
member x, resolves z exactly as it resolves without the cycle present, and
terminates: `resolveF` returns a result whenever its fuel exceeds the
number of not-yet-visited raw ids, which the fuel used by the eager pass
always does. -/
theorem claim_cycle_containment :
    resolveAll rawCycZ "x" = some "[Cyclic alias: x]" ∧
    resolveAll rawCycZ "y" = some "[Cyclic alias: x]" ∧
    resolveAll rawCycZ "z" = some "hello" ∧
    resolveAll [("z", "hello")] "z" = some "hello" ∧
    (∀ (raw : List (String × String)) (fuel : Nat) (k : String)
       (visited : List String) (res : RMap),
      ((raw.map Prod.fst).filter (fun x => !(decide (x ∈ visited)))).length < fuel →
      (resolveF raw fuel k visited res).isSome = true) :=
  ⟨by decide, by decide, by decide, by decide,
   fun raw fuel k visited res h => resolveF_isSome raw fuel k visited res h⟩

/-- Witness for C7's termination conjunct on the cyclic map itself. -/
theorem claim_cycle_containment_witness :
    (resolveF rawCyc 3 "x" [] rmEmpty).isSome = true :=
  claim_cycle_containment.2.2.2.2 rawCyc 3 "x" [] rmEmpty (by decide)

/-- C8: classification dispatch on key shape: `weapon/sword_001` lands in
weapons under `sword_001`; `Character3_name_skin2` lands in
characters[3][2]; `Pet_name_7` lands in pets while the `_des` and `_lock`
suffixed variants are excluded from pets; `task/boss1_title` lands in
challenge_titles under `boss1` — each mapped to its resolved string. -/
theorem claim_classification_dispatch :
    (build_dictionaries entriesC8).weapons "sword_001" = some "W" ∧
    (build_dictionaries entriesC8).characters "3" "2" = some "C" ∧
    (build_dictionaries entriesC8).pets "Pet_name_7" = some "P" ∧
    (build_dictionaries entriesC8).pets "Pet_name_7_des" = none ∧
    (build_dictionaries entriesC8).pets "Pet_name_7_lock" = none ∧
    (build_dictionaries entriesC8).challenge_titles "boss1" = some "T" :=
  ⟨by decide, by decide, by decide, by decide, by decide, by decide⟩

/-- C9: after the eager pass, every id of the input mapping is present in
the resolved map; and an alias to a missing id additionally inserts that
missing id (resolved to the empty string), so the resolved key set can be a
strict superset of the input key set: on the single-entry map a alias zzz,
both a and zzz end up resolved to the empty string. -/
theorem claim_resolved_superset :
    (∀ (raw : List (String × String)) (k : String), k ∈ raw.map Prod.fst →
      ((resolveAll raw) k).isSome = true) ∧
    resolveAll [("a", "\x7bzzz\x7d")] "a" = some "" ∧
    resolveAll [("a", "\x7bzzz\x7d")] "zzz" = some "" :=
  ⟨fun raw k hk => resolveAllOrder_covers raw (raw.map Prod.fst) rmEmpty k hk,
   by decide, by decide⟩

/-- Witness for C9's coverage conjunct on the concrete one-entry map. -/
theorem claim_resolved_superset_witness :
    ((resolveAll [("a", "\x7bzzz\x7d")]) "a").isSome = true :=
  claim_resolved_superset.1 [("a", "\x7bzzz\x7d")] "a" (by decide)

/-- C10: the broad classifier matches the character-skin rule by prefix
only (every key whose full-match succeeds also prefix-matches with the same
groups, and the trailing-suffix key `Character3_name_skin2_extra`
prefix-matches into characters[3][2]), while the needed-data export
accepts only full matches, so that same key is absent from the narrow skin
export. -/
theorem claim_skin_prefix_vs_full :
    (∀ (key n s : String), charSkinFull key = some (n, s) →
      charSkinMatch key = some (n, s)) ∧
    (build_dictionaries [("Character3_name_skin2_extra", "V")]).characters "3" "2" =
      some "V" ∧
    (export_needed_data [("Character3_name_skin2_extra", "V")]).skin "c3" "c3_skin2" =
      none ∧
    charSkinMatch "Character3_name_skin2_extra" = some ("3", "2") ∧
    charSkinFull "Character3_name_skin2_extra" = none :=
  ⟨charSkinFull_match, by decide, by decide, by decide, by decide⟩

/-- Witness for C10's matcher-implication conjunct on an exact-match key. -/
theorem claim_skin_prefix_vs_full_witness :
    charSkinMatch "Character3_name_skin2" = some ("3", "2") :=
  claim_skin_prefix_vs_full.1 "Character3_name_skin2" "3" "2" (by decide)
